import Mathlib

/-!
Verification of the chipengine tournament/game core.

Shallow embedding of:
- `src/chipengine/games/rps.py` (`RockPaperScissorsGame`)
- `src/chipengine/core/tournament.py` (`TournamentManager`)
- the background scheduling loop of `src/chipengine/api/routes/tournaments.py`

Python dicts keyed by strings are modelled as association lists with
insert-overwrites semantics; SQLAlchemy rows are modelled as structures and
row mutation as functional update of the containing list; `random.shuffle`
and `random.randint`/`random.choice` are modelled as explicit oracle
parameters.  Machine integers are Python big-ints, modelled as `Int`
(counters that only grow are `Nat`).
-/

deriving instance DecidableEq for Except

namespace Chipengine

/-! ### Dict model (Python `dict` keyed by strings) -/

/-- Insert into a dict: overwrite the first binding of the key, else append.
Models Python `d[k] = v`. -/
def dict_insert {β : Type} : List (String × β) → String → β → List (String × β)
  | [], k, v => [(k, v)]
  | (k0, v0) :: rest, k, v =>
    if k0 = k then (k, v) :: rest else (k0, v0) :: dict_insert rest k v

/-- Key membership. Models Python `k in d`. -/
def dict_contains {β : Type} (d : List (String × β)) (k : String) : Bool :=
  d.any (fun e => e.1 == k)

/-- Lookup. Models Python `d[k]` (callers only use it where the key exists). -/
def dict_get {β : Type} (d : List (String × β)) (k : String) : Option β :=
  (d.find? (fun e => e.1 == k)).map (fun e => e.2)

/-! ### `games/rps.py`: the reference rock/paper/scissors engine -/

/-- `core/base_game.py` `Move` (the `data` payload is never read by RPS). -/
structure Move where
  player : String
  action : String
deriving DecidableEq, Repr

/-- One entry of `state.metadata["rounds"]` as built by `_resolve_round`. -/
structure RoundResult where
  round : Nat
  moves : List (String × String)
  winner : Option String
deriving DecidableEq, Repr

/-- The `RockPaperScissorsGame` object together with its `RPSGameState`.
The constructor enforces exactly two players, so `players` is a pair. -/
structure RPSGame where
  game_id : String
  players : String × String
  total_rounds : Nat
  round_number : Nat
  moves_this_round : List (String × String)
  scores : List (String × Int)
  metadata_rounds : List RoundResult
  moves : List Move
deriving DecidableEq, Repr

/-- `__init__` + `_initialize_state`. -/
def rps_init (gid p1 p2 : String) (total_rounds : Nat) : RPSGame :=
  { game_id := gid
    players := (p1, p2)
    total_rounds := total_rounds
    round_number := 1
    moves_this_round := []
    scores := dict_insert (dict_insert [] p1 0) p2 0
    metadata_rounds := []
    moves := [] }

/-- Models Python `str.lower` (ASCII case folding on the character list). -/
def lower_str (s : String) : String :=
  String.mk (s.data.map Char.toLower)

/-- The values of the `RPSChoice` enum; `RPSChoice(x)` succeeds iff `x` is
one of these. -/
def legal_actions : List String := ["rock", "paper", "scissors"]

/-- Models Python `move.player in self.players` (a two-element list). -/
def mem_players (g : RPSGame) (p : String) : Bool :=
  p == g.players.1 || p == g.players.2

/-- `is_game_over`: `round_number > total_rounds`. -/
def is_game_over (g : RPSGame) : Bool :=
  decide (g.total_rounds < g.round_number)

/-- Score lookup `self.state.scores[player]`; the key always exists in
reachable states because `_initialize_state` populates both players. -/
def score_of (g : RPSGame) (p : String) : Int :=
  ((dict_get g.scores p).getD 0)

/-- `is_valid_move`, with the source's check order. -/
def is_valid_move (g : RPSGame) (m : Move) : Bool :=
  if mem_players g m.player = false then false
  else if dict_contains g.moves_this_round m.player then false
  else if is_game_over g then false
  else legal_actions.contains (lower_str m.action)

/-- `_determine_round_winner`.  The `wins` table is the fixed dict
`rock → scissors, paper → rock, scissors → paper`; callers only pass
recorded (hence validated, lowercase) choices, so the dict lookup
cannot fail and is modelled as the corresponding total function. -/
def determine_round_winner (g : RPSGame) (c1 c2 : String) : Option String :=
  if c1 = c2 then none
  else
    let beats := fun c =>
      if c = "rock" then "scissors" else if c = "paper" then "rock" else "paper"
    if beats c1 = c2 then some g.players.1 else some g.players.2

/-- `_resolve_round`: score the round, append the round metadata entry,
clear the pending moves and advance the round counter. -/
def resolve_round (g : RPSGame) : RPSGame :=
  let c1 := (dict_get g.moves_this_round g.players.1).getD ""
  let c2 := (dict_get g.moves_this_round g.players.2).getD ""
  let w := determine_round_winner g c1 c2
  let g1 :=
    if w = some g.players.1 then
      { g with scores := dict_insert g.scores g.players.1 (score_of g g.players.1 + 1) }
    else if w = some g.players.2 then
      { g with scores := dict_insert g.scores g.players.2 (score_of g g.players.2 + 1) }
    else g
  { g1 with
      metadata_rounds := g1.metadata_rounds ++ [⟨g.round_number, g.moves_this_round, w⟩]
      moves_this_round := []
      round_number := g.round_number + 1 }

/-- `apply_move`.  The first component is the call's outcome (`.error` models
the raised `ValueError`), the second component is the state of the game
object after the call. -/
def apply_move (g : RPSGame) (m : Move) : Except String Unit × RPSGame :=
  if is_valid_move g m = false then (Except.error "Invalid move", g)
  else
    let g1 := { g with
      moves := g.moves ++ [m]
      moves_this_round := dict_insert g.moves_this_round m.player (lower_str m.action) }
    if g1.moves_this_round.length = 2 then (Except.ok (), resolve_round g1)
    else (Except.ok (), g1)

/-- `get_winner`. -/
def get_winner (g : RPSGame) : Option String :=
  if is_game_over g = false then none
  else
    let score1 := score_of g g.players.1
    let score2 := score_of g g.players.2
    if score2 < score1 then some g.players.1
    else if score1 < score2 then some g.players.2
    else none

/-! Concrete RPS inputs used by witnesses. -/

/-- A fresh single-round game between `alice` and `bob`. -/
def gFresh : RPSGame := rps_init "g0" "alice" "bob" 1

/-- A move with an action that is not an RPS symbol. -/
def mBad : Move := ⟨"alice", "lizard"⟩

/-- A valid opening move. -/
def mGood : Move := ⟨"alice", "Rock"⟩

/-- A finished single-round game in which `a` outscored `b`. -/
def gDone : RPSGame :=
  { game_id := "w", players := ("a", "b"), total_rounds := 1, round_number := 2
    moves_this_round := [], scores := [("a", 1), ("b", 0)]
    metadata_rounds := [], moves := [] }


/-! ### `database/models.py`: enums and row types used by the coordinator -/

inductive GameStatus
  | waiting | in_progress | completed | cancelled
deriving DecidableEq, Repr

inductive TournamentStatus
  | scheduled | registration_open | in_progress | completed | cancelled
deriving DecidableEq, Repr

inductive TournamentFormat
  | single_elimination | double_elimination | round_robin | swiss
deriving DecidableEq, Repr

/-- A `TournamentParticipant` row.  DB integers are Python ints (`Int`). -/
structure Participant where
  bot_id : String
  seed : Option Int
  wins : Int
  losses : Int
  draws : Int
  games_played : Int
  score : Int
  eliminated : Bool
  final_rank : Option Int
deriving DecidableEq, Repr

/-- A `Game` row together with its `Player` rows (`players` lists the bot ids
in `player_number` order). -/
structure GameRec where
  round_number : Nat
  players : List String
  status : GameStatus
  winner_id : Option String
deriving DecidableEq, Repr

/-- The per-tournament state the coordinator reads and writes. -/
structure TournamentState where
  status : TournamentStatus
  format : TournamentFormat
  participants : List Participant
  games : List GameRec
deriving DecidableEq, Repr

/-- Default row used with `List.getD`. -/
def dP : Participant :=
  { bot_id := "", seed := none, wins := 0, losses := 0, draws := 0
    games_played := 0, score := 0, eliminated := false, final_rank := none }

/-- Default game used with `List.getD`. -/
def dG : GameRec :=
  { round_number := 0, players := [], status := GameStatus.waiting, winner_id := none }

/-- Models `session.query(TournamentParticipant).filter_by(bot_id=bid).first()`
followed by in-place mutation of the returned row: update the first row with
that bot id (a missing id is a no-op, matching the `if participant:` guards). -/
def upd_first : List Participant → String → (Participant → Participant) → List Participant
  | [], _, _ => []
  | p :: rest, bid, f =>
    if p.bot_id = bid then f p :: rest else p :: upd_first rest bid f

/-! ### `tournament.py` `_update_participant_stats` and game completion -/

/-- One iteration of the outer `for player in players` loop of
`_update_participant_stats`, for the player with bot id `bid`.
`rand_val` is the value `random.randint(0, 1)` would return if the tie
branch reaches its single call in this iteration. -/
def stats_step (format : TournamentFormat) (g : GameRec) (rand_val : Nat)
    (parts : List Participant) (bid : String) : List Participant :=
  if (parts.find? (fun p => p.bot_id == bid)).isNone then parts
  else
    let parts1 := upd_first parts bid (fun p => { p with games_played := p.games_played + 1 })
    match g.winner_id with
    | some w =>
      if w = bid then
        upd_first parts1 bid (fun p => { p with wins := p.wins + 1, score := p.score + 3 })
      else
        let parts2 := upd_first parts1 bid (fun p => { p with losses := p.losses + 1 })
        if format = TournamentFormat.single_elimination then
          upd_first parts2 bid (fun p => { p with eliminated := true })
        else parts2
    | none =>
      let parts2 := upd_first parts1 bid
        (fun p => { p with draws := p.draws + 1, score := p.score + 1 })
      if format = TournamentFormat.single_elimination ∧ g.players.length = 2 then
        let loser_idx := rand_val % 2
        g.players.enum.foldl (fun acc ip =>
          if ip.1 = loser_idx then
            upd_first acc ip.2
              (fun p => { p with eliminated := true, losses := p.losses + 1, score := p.score - 1 })
          else
            upd_first acc ip.2
              (fun p => { p with wins := p.wins + 1, draws := p.draws - 1, score := p.score + 2 }))
          parts2
      else parts2

/-- `_update_participant_stats(game)`: fold the per-player step over the
game's `Player` rows; `rand i` is the oracle for the i-th outer iteration. -/
def update_participant_stats (format : TournamentFormat) (g : GameRec)
    (parts : List Participant) (rand : Nat → Nat) : List Participant :=
  g.players.enum.foldl (fun acc ip => stats_step format g (rand ip.1) acc ip.2) parts

/-- Lines 303-315 of `execute_game`: mark the game completed, then — only if
the engine reports a winner — record it and update participant stats. -/
def complete_game (format : TournamentFormat) (winner : Option String) (g : GameRec)
    (parts : List Participant) (rand : Nat → Nat) : GameRec × List Participant :=
  let g1 := { g with status := GameStatus.completed }
  match winner with
  | some w =>
    let g2 := { g1 with winner_id := some w }
    (g2, update_participant_stats format g2 parts rand)
  | none => (g1, parts)

/-! ### `execute_game`'s move loop, over an abstract engine -/

/-- The capability set of a game engine instance, as used by `execute_game`
(`self.state.current_player`, `get_valid_moves`, `apply_move`, `is_game_over`,
`get_winner`).  `apply_move` may raise (`Except.error`). -/
structure Engine (σ : Type) where
  is_game_over : σ → Bool
  current_player : σ → String
  get_valid_moves : σ → String → List String
  apply_move : σ → String → String → Except String σ
  get_winner : σ → Option String

/-- The `while not game_instance.is_game_over() and move_count < max_moves`
loop; `fuel` is `max_moves - move_count`, `count` the current move counter,
and `pick count valid` models `random.choice(valid_moves)`.  An engine
exception aborts the loop and propagates. -/
def game_loop {σ : Type} (e : Engine σ) (pick : Nat → List String → String) :
    Nat → Nat → σ → Except String σ
  | 0, _, s => Except.ok s
  | fuel + 1, count, s =>
    if e.is_game_over s then Except.ok s
    else
      let cur := e.current_player s
      let valid := e.get_valid_moves s cur
      if valid.isEmpty then Except.ok s
      else
        match e.apply_move s cur (pick count valid) with
        | Except.error err => Except.error err
        | Except.ok s' => game_loop e pick fuel (count + 1) s'

/-- `TournamentManager.execute_game` (the registry lookup is abstracted by
passing the engine and its fresh state).  `Except.error` models an exception
propagating to the caller — note the source has no try/except. -/
def execute_game {σ : Type} (e : Engine σ) (pick : Nat → List String → String)
    (format : TournamentFormat) (g : GameRec) (parts : List Participant)
    (init : σ) (rand : Nat → Nat) : Except String (GameRec × List Participant) :=
  if g.status ≠ GameStatus.waiting then Except.error "Game has already been played"
  else
    let g1 := { g with status := GameStatus.in_progress }
    match game_loop e pick 1000 0 init with
    | Except.error err => Except.error err
    | Except.ok s => Except.ok (complete_game format (e.get_winner s) g1 parts rand)

/-- The `for game in waiting_games: try ... except ...` body of the
background task `execute_tournament_games` in `api/routes/tournaments.py`:
each game is executed; if execution raises, the game is marked cancelled
(the error is only printed) and the loop continues with the next game. -/
def execute_round (ex : GameRec → Except String GameRec) (games : List GameRec) :
    List GameRec :=
  games.map (fun g =>
    match ex g with
    | Except.ok g' => g'
    | Except.error _ => { g with status := GameStatus.cancelled })

/-! ### Scheduling: seeding, single elimination, round robin -/

/-- `_seed_participants` starting at seed `k`: Python's
`for i, participant in enumerate(shuffled): participant.seed = i + 1`
(the shuffled order is supplied by the caller). -/
def seed_from (k : Int) : List Participant → List Participant
  | [] => []
  | p :: ps => { p with seed := some k } :: seed_from (k + 1) ps

/-- Comparison used by `order_by(TournamentParticipant.seed)`. -/
def seed_le (p q : Participant) : Bool :=
  decide (p.seed.getD 0 ≤ q.seed.getD 0)

/-- Stable insertion into a sorted list (model of the DB `ORDER BY`). -/
def insert_sorted {α : Type} (le : α → α → Bool) (x : α) : List α → List α
  | [] => [x]
  | y :: ys => if le x y then x :: y :: ys else y :: insert_sorted le x ys

/-- Stable insertion sort (model of the DB `ORDER BY` / Python `list.sort`). -/
def sort_by {α : Type} (le : α → α → Bool) : List α → List α
  | [] => []
  | x :: xs => insert_sorted le x (sort_by le xs)

/-- The `for i in range(num_games): participants[i*2], participants[i*2+1]`
pairing: element `2*i` is paired with element `2*i+1`; a trailing odd element
is left unpaired. -/
def pair_up {α : Type} : List α → List (α × α)
  | p1 :: p2 :: rest => (p1, p2) :: pair_up rest
  | _ => []

/-- `_create_tournament_game`: a fresh `waiting` game plus its `Player`
rows in order. -/
def mk_tournament_game (round_number : Nat) (bot_ids : List String) : GameRec :=
  { round_number := round_number, players := bot_ids
    status := GameStatus.waiting, winner_id := none }

/-- `_schedule_single_elimination_round`: pair the non-eliminated
participants ordered by seed; on an odd count, bump the last one's
`wins`/`games_played` directly (the bye).  Returns the created games and the
updated participant rows (bot ids are unique, being part of the primary
key, so updating by id updates the one queried row). -/
def schedule_se_round (round_number : Nat) (parts : List Participant) :
    List GameRec × List Participant :=
  let actives := sort_by seed_le (parts.filter (fun p => !p.eliminated))
  let games := (pair_up actives).map
    (fun q => mk_tournament_game round_number [q.1.bot_id, q.2.bot_id])
  if actives.length % 2 = 1 then
    match actives.getLast? with
    | some b =>
      (games, parts.map (fun p =>
        if p.bot_id = b.bot_id then
          { p with wins := p.wins + 1, games_played := p.games_played + 1 }
        else p))
    | none => (games, parts)
  else (games, parts)

/-- The nested `for i ... for j in range(i+1, ...)` index loops of
`_schedule_round_robin_games`: every element paired with each later one,
in loop order. -/
def rr_pairs {α : Type} : List α → List (α × α)
  | [] => []
  | x :: xs => (xs.map (fun y => (x, y))) ++ rr_pairs xs

/-- `_schedule_round_robin_games`: all pairs of the participants' bot ids;
`round_num` is initialised to 1 and never incremented in the source, so
every created game carries round number 1. -/
def schedule_round_robin_games (parts : List Participant) : List GameRec :=
  let bot_ids := parts.map (fun p => p.bot_id)
  (rr_pairs bot_ids).map (fun q => mk_tournament_game 1 [q.1, q.2])

/-- `start_tournament`; `shuffle` models `random.shuffle` and is
constrained to a permutation in the theorems. -/
def start_tournament (shuffle : List Participant → List Participant)
    (t : TournamentState) : Except String TournamentState :=
  if t.status ≠ TournamentStatus.registration_open then
    Except.error "Tournament has already started or is completed"
  else if t.participants.length < 2 then
    Except.error "Tournament needs at least 2 participants"
  else
    let t1 := { t with status := TournamentStatus.in_progress }
    let seeded := seed_from 1 (shuffle t.participants)
    match t.format with
    | TournamentFormat.single_elimination =>
      let out := schedule_se_round 1 seeded
      Except.ok { t1 with participants := out.2, games := t1.games ++ out.1 }
    | TournamentFormat.round_robin =>
      Except.ok { t1 with participants := seeded,
                          games := t1.games ++ schedule_round_robin_games seeded }
    | _ => Except.error "Tournament format not yet implemented"

/-! ### Advancement and finalization -/

/-- The sort key `(-score, -wins, games_played)` of `_complete_tournament`. -/
def rank_le (p q : Participant) : Bool :=
  if p.score ≠ q.score then decide (q.score < p.score)
  else if p.wins ≠ q.wins then decide (q.wins < p.wins)
  else decide (p.games_played ≤ q.games_played)

/-- `for i, participant in enumerate(participants): participant.final_rank = i + 1`. -/
def assign_ranks (k : Int) : List Participant → List Participant
  | [] => []
  | p :: ps => { p with final_rank := some k } :: assign_ranks (k + 1) ps

/-- `_complete_tournament`. -/
def complete_tournament (t : TournamentState) : TournamentState :=
  { t with status := TournamentStatus.completed
           participants := assign_ranks 1 (sort_by rank_le t.participants) }

/-- `_advance_single_elimination`. -/
def advance_single_elimination (t : TournamentState) : Bool × TournamentState :=
  let active := t.participants.countP (fun p => !p.eliminated)
  if active ≤ 1 then (false, complete_tournament t)
  else
    let next_round :=
      match (t.games.map (fun g => g.round_number)).max? with
      | some r => r + 1
      | none => 1
    let out := schedule_se_round next_round t.participants
    (true, { t with games := t.games ++ out.1, participants := out.2 })

/-- `_complete_round_robin`. -/
def complete_round_robin (t : TournamentState) : Bool × TournamentState :=
  (false, complete_tournament t)

/-- `advance_tournament`: note the blocking check counts every game of the
tournament whose status differs from `completed`. -/
def advance_tournament (t : TournamentState) : Bool × TournamentState :=
  if t.status ≠ TournamentStatus.in_progress then (false, t)
  else if 0 < t.games.countP (fun g => decide (g.status ≠ GameStatus.completed)) then
    (false, t)
  else
    match t.format with
    | TournamentFormat.single_elimination => advance_single_elimination t
    | TournamentFormat.round_robin => complete_round_robin t
    | _ => (false, t)

/-! Concrete tournament inputs used by witnesses and counterexamples. -/

def pA : Participant :=
  { bot_id := "A", seed := some 1, wins := 0, losses := 0, draws := 0
    games_played := 0, score := 0, eliminated := false, final_rank := none }

def pB : Participant := { pA with bot_id := "B", seed := some 2 }

def pC : Participant := { pA with bot_id := "C", seed := some 3 }

/-- A completed-run tournament game that ended with no winner (tie). -/
def gTie : GameRec :=
  { round_number := 1, players := ["A", "B"]
    status := GameStatus.in_progress, winner_id := none }

/-- A scheduled game waiting to be executed. -/
def gWaiting : GameRec :=
  { round_number := 1, players := ["A", "B"]
    status := GameStatus.waiting, winner_id := none }

/-- A decisively completed round-1 game. -/
def gCompleted : GameRec :=
  { round_number := 1, players := ["A", "B"]
    status := GameStatus.completed, winner_id := some "A" }

/-- A cancelled round-1 game (its match execution failed). -/
def gCancelled : GameRec :=
  { round_number := 1, players := ["C", "D"]
    status := GameStatus.cancelled, winner_id := none }

/-- The same match, had it completed decisively. -/
def gDoneCD : GameRec := { gCancelled with status := GameStatus.completed, winner_id := some "C" }

/-- An engine whose `apply_move` always raises. -/
def throw_engine : Engine Unit :=
  { is_game_over := fun _ => false
    current_player := fun _ => "A"
    get_valid_moves := fun _ _ => ["rock"]
    apply_move := fun _ _ _ => Except.error "boom"
    get_winner := fun _ => none }

/-- Deterministic stand-in for `random.choice`. -/
def pick_first (_count : Nat) (valid : List String) : String := valid.headD ""

/-- Deterministic stand-in for `random.randint(0, 1)`. -/
def rand0 : Nat → Nat := fun _ => 0

/-- A match-execution function that always raises. -/
def ex_throw : GameRec → Except String GameRec := fun _ => Except.error "boom"

/-- In-progress single elimination; all round-1 matches are terminal but one
is cancelled. -/
def tBlocked : TournamentState :=
  { status := TournamentStatus.in_progress, format := TournamentFormat.single_elimination
    participants := [pA, pB], games := [gCompleted, gCancelled] }

/-- Same tournament with the second match completed instead of cancelled. -/
def tReady : TournamentState := { tBlocked with games := [gCompleted, gDoneCD] }

/-- A round-robin tournament open for registration with two fresh entrants. -/
def tReg : TournamentState :=
  { status := TournamentStatus.registration_open, format := TournamentFormat.round_robin
    participants := [{ pA with seed := none }, { pB with seed := none }], games := [] }

/-- Three seeded participants (used for round robin and odd-round byes). -/
def parts3 : List Participant := [pA, pB, pC]


/-! ## Theorems -/

lemma is_valid_move_false_iff (g : RPSGame) (m : Move) :
    is_valid_move g m = false ↔
      (mem_players g m.player = false ∨ dict_contains g.moves_this_round m.player = true ∨
       is_game_over g = true ∨ legal_actions.contains (lower_str m.action) = false) := by
  unfold is_valid_move
  split_ifs with h1 h2 h3
  · simp [h1]
  · simp [h2]
  · simp [h3]
  · simp [h1, h2, h3]

/-- C8: the reference RPS engine is terminal exactly when
`round_number > total_rounds`; once terminal the winner is the participant
with the strictly higher cumulative score and there is no winner on equal
scores; in a single-round match rock beats scissors and rock vs rock has no
winner. -/
theorem rps_C8 :
    (∀ g : RPSGame, is_game_over g = true ↔ g.total_rounds < g.round_number) ∧
    (∀ (g : RPSGame) (w : String), get_winner g = some w →
        is_game_over g = true ∧
        ((w = g.players.1 ∧ score_of g g.players.2 < score_of g g.players.1) ∨
         (w = g.players.2 ∧ score_of g g.players.1 < score_of g g.players.2))) ∧
    (∀ g : RPSGame, is_game_over g = true →
        (get_winner g = none ↔ score_of g g.players.1 = score_of g g.players.2)) ∧
    get_winner (apply_move (apply_move (rps_init "m" "p1" "p2" 1) ⟨"p1", "rock"⟩).2
      ⟨"p2", "scissors"⟩).2 = some "p1" ∧
    get_winner (apply_move (apply_move (rps_init "m" "p1" "p2" 1) ⟨"p1", "rock"⟩).2
      ⟨"p2", "rock"⟩).2 = none ∧
    is_game_over (apply_move (apply_move (rps_init "m" "p1" "p2" 1) ⟨"p1", "rock"⟩).2
      ⟨"p2", "scissors"⟩).2 = true := by
  refine ⟨?_, ?_, ?_, by decide, by decide, by decide⟩
  · intro g; simp [is_game_over]
  · intro g w h
    unfold get_winner at h
    by_cases hov : is_game_over g = false
    · simp [hov] at h
    · have hov' : is_game_over g = true := by
        revert hov; cases is_game_over g <;> simp
      refine ⟨hov', ?_⟩
      rw [if_neg (by simp [hov'])] at h
      dsimp only at h
      split_ifs at h with h1 h2
      · exact Or.inl ⟨(Option.some.inj h).symm, h1⟩
      · exact Or.inr ⟨(Option.some.inj h).symm, h2⟩
  · intro g hov
    unfold get_winner
    rw [if_neg (by simp [hov])]
    dsimp only
    split_ifs with h1 h2
    · simp; omega
    · simp; omega
    · simp; omega

/-- C8 witness: the general winner characterization evaluated on a concrete
finished game. -/
theorem rps_C8_witness :
    is_game_over gDone = true ∧
    ((("a" : String) = gDone.players.1 ∧
        score_of gDone gDone.players.2 < score_of gDone gDone.players.1) ∨
     (("a" : String) = gDone.players.2 ∧
        score_of gDone gDone.players.1 < score_of gDone gDone.players.2)) :=
  rps_C8.2.1 gDone "a" (by decide)

/-- C9: `apply_move` rejects a move exactly when the mover is not a
participant, the mover already moved this round, the game is terminal, or
the action is not a legal symbol (case-insensitively); an accepted move is
recorded in the move log. -/
theorem rps_C9 : ∀ (g : RPSGame) (m : Move),
    (((apply_move g m).1 = Except.error "Invalid move") ↔
       (mem_players g m.player = false ∨ dict_contains g.moves_this_round m.player = true ∨
        is_game_over g = true ∨ legal_actions.contains (lower_str m.action) = false)) ∧
    (((apply_move g m).1 = Except.ok ()) → (apply_move g m).2.moves = g.moves ++ [m]) := by
  intro g m
  constructor
  · rw [← is_valid_move_false_iff]
    unfold apply_move
    split_ifs with hv
    · simp [hv]
    · exact iff_of_false (by dsimp only; split <;> simp) hv
  · unfold apply_move
    split_ifs with hv
    · intro h; simp at h
    · intro _
      dsimp only
      split
      · show (resolve_round _).moves = _
        simp [resolve_round]
        split_ifs <;> rfl
      · rfl

/-- C9 witness: a rejected illegal action and an accepted move on a fresh
game. -/
theorem rps_C9_witness :
    ((apply_move gFresh mBad).1 = Except.error "Invalid move") ∧
    (apply_move gFresh mGood).2.moves = gFresh.moves ++ [mGood] :=
  ⟨(rps_C9 gFresh mBad).1.mpr (Or.inr (Or.inr (Or.inr (by decide)))),
   (rps_C9 gFresh mGood).2 (by decide)⟩

/-- C10: whenever `apply_move` raises, the scores, pending moves, round
number, round history and move log are all unchanged. -/
theorem rps_C10 : ∀ (g : RPSGame) (m : Move) (e : String) (g' : RPSGame),
    apply_move g m = (Except.error e, g') →
    g'.scores = g.scores ∧ g'.moves_this_round = g.moves_this_round ∧
    g'.round_number = g.round_number ∧ g'.metadata_rounds = g.metadata_rounds ∧
    g'.moves = g.moves := by
  intro g m e g' h
  unfold apply_move at h
  split_ifs at h with hv
  · cases h
    exact ⟨rfl, rfl, rfl, rfl, rfl⟩
  · dsimp only at h
    split at h <;> simp at h

/-- C10 witness: an invalid move on a fresh game leaves every state
component unchanged. -/
theorem rps_C10_witness :
    (apply_move gFresh mBad).2.scores = gFresh.scores ∧
    (apply_move gFresh mBad).2.moves_this_round = gFresh.moves_this_round ∧
    (apply_move gFresh mBad).2.round_number = gFresh.round_number ∧
    (apply_move gFresh mBad).2.metadata_rounds = gFresh.metadata_rounds ∧
    (apply_move gFresh mBad).2.moves = gFresh.moves :=
  rps_C10 gFresh mBad "Invalid move" (apply_move gFresh mBad).2 (by decide)

/-- C1 (code bug): evaluating the completion path of `execute_game` at a
tied single-elimination match shows that no participant stats are updated at
all — `_update_participant_stats` is only called when a winner exists, so
the claimed `draws += 1`, `score += 1` and random-elimination tie policy
never runs; the winner path, by contrast, applies the claimed updates. -/
theorem tournament_C1_tie_no_stats :
    complete_game TournamentFormat.single_elimination none gTie [pA, pB] rand0
      = ({ gTie with status := GameStatus.completed }, [pA, pB]) ∧
    (complete_game TournamentFormat.single_elimination (some "A") gTie [pA, pB] rand0).2
      = [{ pA with wins := 1, games_played := 1, score := 3 },
         { pB with losses := 1, games_played := 1, eliminated := true }] := by
  decide

/-- C2 counterexample: an engine exception during `apply_move` propagates
out of `execute_game` as an error instead of being caught locally and
converting the match to cancelled. -/
theorem tournament_C2_counterexample :
    execute_game throw_engine pick_first TournamentFormat.single_elimination
      gWaiting [pA, pB] () rand0 = Except.error "boom" := by
  rfl

/-- C3 counterexample: with every current-round match terminal but one of
them cancelled, `advance_tournament` refuses to progress (returns false and
leaves the state unchanged), whereas the same tournament with both matches
completed does advance. -/
theorem tournament_C3_counterexample :
    advance_tournament tBlocked = (false, tBlocked) ∧
    (advance_tournament tReady).1 = true := by
  decide

/-- C6 counterexample: for three participants the round-robin scheduler
creates all three matches with round number 1, so participant A appears in
two matches of the same round even though N > 2 makes a conflict-free
distribution feasible. -/
theorem tournament_C6_counterexample :
    (schedule_round_robin_games parts3).length = 3 ∧
    (schedule_round_robin_games parts3).countP (fun g => g.round_number == 1) = 3 ∧
    (schedule_round_robin_games parts3).countP
      (fun g => g.round_number == 1 && g.players.contains "A") = 2 ∧
    2 < parts3.length := by
  decide

/-- C3 amended: `advance_tournament` is a no-op returning false when the
tournament is not in progress or when any match of the tournament has a
status other than completed — in particular a cancelled match blocks
advancement. -/
theorem tournament_C3_amended : ∀ t : TournamentState,
    (t.status ≠ TournamentStatus.in_progress → advance_tournament t = (false, t)) ∧
    (∀ g ∈ t.games, g.status ≠ GameStatus.completed → advance_tournament t = (false, t)) := by
  intro t
  constructor
  · intro h; unfold advance_tournament; rw [if_pos h]
  · intro g hg hgs
    unfold advance_tournament
    split_ifs with h1 h2
    · rfl
    · rfl
    · exact absurd (List.countP_pos_iff.mpr ⟨g, hg, by simp [hgs]⟩) h2

/-- C3 witness: the amended no-op property evaluated on the concrete
blocked tournament. -/
theorem tournament_C3_witness : advance_tournament tBlocked = (false, tBlocked) :=
  (tournament_C3_amended tBlocked).2 gCancelled (by decide) (by decide)

/-- C2 amended: the background scheduling loop catches the exception that
`execute_game` propagates, marks exactly the failed match cancelled, and
continues executing the remaining matches, never raising itself. -/
theorem tournament_C2_amended :
    ∀ (ex : GameRec → Except String GameRec) (gs : List GameRec) (j : Nat),
    j < gs.length →
    (execute_round ex gs).length = gs.length ∧
    (∀ e, ex (gs.getD j dG) = Except.error e →
      (execute_round ex gs).getD j dG = { gs.getD j dG with status := GameStatus.cancelled }) ∧
    (∀ g', ex (gs.getD j dG) = Except.ok g' → (execute_round ex gs).getD j dG = g') := by
  intro ex gs j hj
  have hget : ∀ (d : GameRec), (execute_round ex gs).getD j d =
      (match ex (gs.getD j d) with
       | Except.ok g' => g'
       | Except.error _ => { gs.getD j d with status := GameStatus.cancelled }) := by
    intro d
    simp only [execute_round, List.getD_eq_getElem?_getD, List.getElem?_map,
      List.getElem?_eq_getElem hj]
    rfl
  refine ⟨by simp [execute_round], ?_, ?_⟩
  · intro e he
    rw [hget dG, he]
  · intro g' hok
    rw [hget dG, hok]

/-- C2 witness: a throwing executor on a one-game round yields that game
cancelled. -/
theorem tournament_C2_witness :
    (execute_round ex_throw [gWaiting]).getD 0 dG
      = { gWaiting with status := GameStatus.cancelled } :=
  (tournament_C2_amended ex_throw [gWaiting] 0 (by decide)).2.1 "boom" (by rfl)

lemma rr_pairs_length {α : Type} : ∀ l : List α,
    2 * (rr_pairs l).length = l.length * (l.length - 1) := by
  intro l
  induction l with
  | nil => rfl
  | cons x xs ih =>
    simp only [rr_pairs, List.length_append, List.length_map, List.length_cons]
    cases hn : xs.length with
    | zero =>
      rw [hn] at ih
      omega
    | succ m =>
      have h3 : m + 1 - 1 = m := rfl
      have h4 : m + 1 + 1 - 1 = m + 1 := rfl
      rw [hn, h3] at ih
      rw [h4]
      have h2 : (m + 1 + 1) * (m + 1) = (m + 1) * m + 2 * (m + 1) := by ring
      rw [h2]
      omega

lemma rr_pairs_mem {α : Type} : ∀ (l : List α) (q : α × α),
    q ∈ rr_pairs l → q.1 ∈ l ∧ q.2 ∈ l := by
  intro l
  induction l with
  | nil => simp [rr_pairs]
  | cons x xs ih =>
    intro q hq
    simp only [rr_pairs, List.mem_append, List.mem_map] at hq
    rcases hq with ⟨y, hy, rfl⟩ | hq
    · exact ⟨by simp, by simp [hy]⟩
    · obtain ⟨h1, h2⟩ := ih q hq
      exact ⟨by simp [h1], by simp [h2]⟩

lemma rr_pairs_countP (a b : String) : ∀ (l : List String), l.Nodup → a ≠ b →
    a ∈ l → b ∈ l →
    (rr_pairs l).countP
      (fun q => (q.1 == a && q.2 == b) || (q.1 == b && q.2 == a)) = 1 := by
  intro l
  induction l with
  | nil => simp
  | cons x xs ih =>
    intro hnd hab ha hb
    rw [List.nodup_cons] at hnd
    obtain ⟨hx, hnd⟩ := hnd
    simp only [rr_pairs, List.countP_append, List.countP_map]
    by_cases hax : a = x
    · subst hax
      have hbxs : b ∈ xs := by
        rcases List.mem_cons.mp hb with rfl | h
        · exact absurd rfl hab
        · exact h
      have hfst : (xs.countP ((fun q : String × String =>
          (q.1 == a && q.2 == b) || (q.1 == b && q.2 == a)) ∘ fun y => (a, y))) = 1 := by
        have hcongr : ∀ y ∈ xs, ((fun q : String × String =>
            (q.1 == a && q.2 == b) || (q.1 == b && q.2 == a)) ∘ fun y => (a, y)) y
              = (y == b) := by
          intro y _
          simp [Function.comp]
          intro hba
          exact absurd hba hab
        rw [List.countP_congr (by intro y hy; rw [hcongr y hy])]
        have := List.count_eq_one_of_mem hnd hbxs
        simpa [List.count] using this
      have hsnd : (rr_pairs xs).countP
          (fun q => (q.1 == a && q.2 == b) || (q.1 == b && q.2 == a)) = 0 := by
        rw [List.countP_eq_zero]
        intro q hq hpq
        obtain ⟨h1, h2⟩ := rr_pairs_mem xs q hq
        simp only [Bool.or_eq_true, Bool.and_eq_true, beq_iff_eq] at hpq
        rcases hpq with ⟨hqa, _⟩ | ⟨_, hqa⟩
        · exact hx (hqa ▸ h1)
        · exact hx (hqa ▸ h2)
      omega
    · by_cases hbx : b = x
      · subst hbx
        have haxs : a ∈ xs := by
          rcases List.mem_cons.mp ha with rfl | h
          · exact absurd rfl hax
          · exact h
        have hfst : (xs.countP ((fun q : String × String =>
            (q.1 == a && q.2 == b) || (q.1 == b && q.2 == a)) ∘ fun y => (b, y))) = 1 := by
          have hcongr : ∀ y ∈ xs, ((fun q : String × String =>
              (q.1 == a && q.2 == b) || (q.1 == b && q.2 == a)) ∘ fun y => (b, y)) y
                = (y == a) := by
            intro y _
            simp [Function.comp]
            intro hba
            exact absurd hba (Ne.symm hab)
          rw [List.countP_congr (by intro y hy; rw [hcongr y hy])]
          have := List.count_eq_one_of_mem hnd haxs
          simpa [List.count] using this
        have hsnd : (rr_pairs xs).countP
            (fun q => (q.1 == a && q.2 == b) || (q.1 == b && q.2 == a)) = 0 := by
          rw [List.countP_eq_zero]
          intro q hq hpq
          obtain ⟨h1, h2⟩ := rr_pairs_mem xs q hq
          simp only [Bool.or_eq_true, Bool.and_eq_true, beq_iff_eq] at hpq
          rcases hpq with ⟨_, hqb⟩ | ⟨hqb, _⟩
          · exact hx (hqb ▸ h2)
          · exact hx (hqb ▸ h1)
        omega
      · have hfst : (xs.countP ((fun q : String × String =>
            (q.1 == a && q.2 == b) || (q.1 == b && q.2 == a)) ∘ fun y => (x, y))) = 0 := by
          rw [List.countP_eq_zero]
          intro y _ hpy
          simp only [Function.comp, Bool.or_eq_true, Bool.and_eq_true, beq_iff_eq] at hpy
          rcases hpy with ⟨hxa, _⟩ | ⟨hxb, _⟩
          · exact hax hxa.symm
          · exact hbx hxb.symm
        have haxs : a ∈ xs := by
          rcases List.mem_cons.mp ha with rfl | h
          · exact absurd rfl hax
          · exact h
        have hbxs : b ∈ xs := by
          rcases List.mem_cons.mp hb with rfl | h
          · exact absurd rfl hbx
          · exact h
        have := ih hnd hab haxs hbxs
        omega



/-- C5: a round-robin start creates exactly N(N-1)/2 matches and each
unordered pair of distinct participants is the player pair of exactly one
match. -/
theorem tournament_C5 : ∀ (parts : List Participant),
    (parts.map (fun p => p.bot_id)).Nodup →
    (schedule_round_robin_games parts).length = parts.length * (parts.length - 1) / 2 ∧
    (∀ a b : String, a ≠ b → a ∈ parts.map (fun p => p.bot_id) →
      b ∈ parts.map (fun p => p.bot_id) →
      (schedule_round_robin_games parts).countP
        (fun g => (g.players == [a, b]) || (g.players == [b, a])) = 1) := by
  intro parts hnd
  constructor
  · have h2 := rr_pairs_length (parts.map (fun p => p.bot_id))
    simp only [schedule_round_robin_games, List.length_map] at *
    omega
  · intro a b hab ha hb
    have hcnt := rr_pairs_countP a b (parts.map (fun p => p.bot_id)) hnd hab ha hb
    simp only [schedule_round_robin_games, List.countP_map]
    have hpt : ∀ q ∈ rr_pairs (parts.map (fun p => p.bot_id)),
        ((fun g => (g.players == [a, b]) || (g.players == [b, a])) ∘
          (fun q : String × String => mk_tournament_game 1 [q.1, q.2])) q
          = ((q.1 == a && q.2 == b) || (q.1 == b && q.2 == a)) := by
      intro q _
      rw [Bool.eq_iff_iff]
      simp [mk_tournament_game, Function.comp]
    rw [List.countP_congr (by intro q hq; rw [hpt q hq])]
    exact hcnt

/-- C5 witness: the count and pair-uniqueness evaluated for three concrete
participants. -/
theorem tournament_C5_witness :
    (schedule_round_robin_games parts3).length = parts3.length * (parts3.length - 1) / 2 ∧
    (schedule_round_robin_games parts3).countP
      (fun g => (g.players == ["A", "B"]) || (g.players == ["B", "A"])) = 1 :=
  ⟨(tournament_C5 parts3 (by decide)).1,
   (tournament_C5 parts3 (by decide)).2 "A" "B" (by decide) (by decide) (by decide)⟩

/-- C6 amended: every match created by the round-robin scheduler carries
round number 1 — no distribution across rounds is performed. -/
theorem tournament_C6_amended : ∀ (parts : List Participant) (g : GameRec),
    g ∈ schedule_round_robin_games parts → g.round_number = 1 := by
  intro parts g hg
  simp only [schedule_round_robin_games, List.mem_map] at hg
  obtain ⟨q, _, rfl⟩ := hg
  rfl

/-- C6 witness: the amended round-number property at a concrete match of
the concrete schedule. -/
theorem tournament_C6_witness :
    (mk_tournament_game 1 ["A", "B"]).round_number = 1 :=
  tournament_C6_amended parts3 (mk_tournament_game 1 ["A", "B"]) (by decide)

lemma seed_from_map_seed : ∀ (k : Int) (l : List Participant),
    (seed_from k l).map (fun p => p.seed)
      = (List.range l.length).map (fun i : Nat => some (k + (i : Int))) := by
  intro k l
  induction l generalizing k with
  | nil => rfl
  | cons p ps ih =>
    simp only [seed_from, List.map_cons, List.length_cons, List.range_succ_eq_map,
      ih (k + 1), List.map_map]
    congr 1
    · simp
    · apply List.map_congr_left
      intro i _
      simp only [Function.comp]
      congr 1
      push_cast
      ring

lemma seed_from_length : ∀ (k : Int) (l : List Participant),
    (seed_from k l).length = l.length := by
  intro k l
  induction l generalizing k with
  | nil => rfl
  | cons p ps ih => simp [seed_from, ih (k + 1)]

lemma seed_from_eliminated_false : ∀ (k : Int) (l : List Participant),
    (∀ p ∈ l, p.eliminated = false) → ∀ q ∈ seed_from k l, q.eliminated = false := by
  intro k l
  induction l generalizing k with
  | nil => intro _ q hq; simp [seed_from] at hq
  | cons p ps ih =>
    intro h q hq
    simp only [seed_from, List.mem_cons] at hq
    rcases hq with rfl | hq
    · exact h p (by simp)
    · exact ih (k + 1) (fun p hp => h p (by simp [hp])) q hq

lemma insert_sorted_length {α : Type} (le : α → α → Bool) (x : α) :
    ∀ l : List α, (insert_sorted le x l).length = l.length + 1 := by
  intro l
  induction l with
  | nil => rfl
  | cons y ys ih =>
    simp only [insert_sorted]
    split_ifs <;> simp [ih]

lemma sort_by_length {α : Type} (le : α → α → Bool) :
    ∀ l : List α, (sort_by le l).length = l.length := by
  intro l
  induction l with
  | nil => rfl
  | cons x xs ih => simp [sort_by, insert_sorted_length, ih]

lemma pair_up_length {α : Type} : ∀ l : List α, (pair_up l).length = l.length / 2
  | [] => by simp [pair_up]
  | [_] => by simp [pair_up]
  | x :: y :: r => by
    simp only [pair_up, List.length_cons]
    rw [pair_up_length r]
    omega

/-- The games component of `_schedule_single_elimination_round` does not
depend on the bye branch. -/
lemma schedule_se_round_fst (r : Nat) (parts : List Participant) :
    (schedule_se_round r parts).1
      = (pair_up (sort_by seed_le (parts.filter (fun p => !p.eliminated)))).map
          (fun q => mk_tournament_game r [q.1.bot_id, q.2.bot_id]) := by
  unfold schedule_se_round
  dsimp only
  split_ifs with h
  · cases hl : (sort_by seed_le (parts.filter (fun p => !p.eliminated))).getLast? <;> rfl
  · rfl

lemma schedule_se_round_map_seed (r : Nat) (parts : List Participant) :
    ((schedule_se_round r parts).2).map (fun p => p.seed)
      = parts.map (fun p => p.seed) := by
  unfold schedule_se_round
  dsimp only
  split_ifs with h
  · cases hl : (sort_by seed_le (parts.filter (fun p => !p.eliminated))).getLast? with
    | none => rfl
    | some b =>
      dsimp only
      rw [List.map_map]
      apply List.map_congr_left
      intro p _
      simp only [Function.comp]
      split_ifs <;> rfl
  · rfl

lemma rr_games_round_one : ∀ (parts : List Participant) (g : GameRec),
    g ∈ schedule_round_robin_games parts → g.round_number = 1 := by
  intro parts g hg
  simp only [schedule_round_robin_games, List.mem_map] at hg
  obtain ⟨q, _, rfl⟩ := hg
  rfl

/-- C4: `start_tournament` fails when the tournament is not open for
registration (hence a second start fails and cannot reseed) or has fewer
than two participants; on success the assigned seeds are a permutation of
1..N, the status becomes in-progress, and fresh round-1 matches are
generated per the format. -/
theorem tournament_C4 :
    ∀ (shuffle : List Participant → List Participant) (t : TournamentState),
    (t.status ≠ TournamentStatus.registration_open →
      start_tournament shuffle t
        = Except.error "Tournament has already started or is completed") ∧
    (t.status = TournamentStatus.registration_open → t.participants.length < 2 →
      start_tournament shuffle t
        = Except.error "Tournament needs at least 2 participants") ∧
    (t.status = TournamentStatus.registration_open → 2 ≤ t.participants.length →
      (shuffle t.participants).Perm t.participants →
      (∀ p ∈ t.participants, p.eliminated = false) →
      (t.format = TournamentFormat.single_elimination ∨
        t.format = TournamentFormat.round_robin) →
      ∃ t' : TournamentState, start_tournament shuffle t = Except.ok t' ∧
        t'.status = TournamentStatus.in_progress ∧
        (t'.participants.map (fun p => p.seed)).Perm
          ((List.range t.participants.length).map (fun i : Nat => some ((i : Int) + 1))) ∧
        ∃ new : List GameRec, t'.games = t.games ++ new ∧ new ≠ [] ∧
          ∀ g ∈ new, g.round_number = 1) := by
  intro shuffle t
  refine ⟨?_, ?_, ?_⟩
  · intro h
    unfold start_tournament
    rw [if_pos h]
  · intro h1 h2
    unfold start_tournament
    rw [if_neg (by simp [h1]), if_pos h2]
  · intro h1 h2 hperm hel hfmt
    unfold start_tournament
    rw [if_neg (by simp [h1]), if_neg (by omega)]
    dsimp only
    have hlen : (shuffle t.participants).length = t.participants.length := hperm.length_eq
    have helsh : ∀ p ∈ shuffle t.participants, p.eliminated = false := by
      intro p hp
      exact hel p (hperm.mem_iff.mp hp)
    have helseed : ∀ q ∈ seed_from 1 (shuffle t.participants), q.eliminated = false :=
      seed_from_eliminated_false 1 _ helsh
    have hseedlen : (seed_from 1 (shuffle t.participants)).length = t.participants.length := by
      rw [seed_from_length, hlen]
    have hseedperm :
        ((seed_from 1 (shuffle t.participants)).map (fun p => p.seed)).Perm
          ((List.range t.participants.length).map (fun i : Nat => some ((i : Int) + 1))) := by
      rw [seed_from_map_seed, hlen]
      have he : (fun i : Nat => some ((1 : Int) + (i : Int)))
          = fun i : Nat => some ((i : Int) + 1) := by
        funext i
        rw [Int.add_comm]
      rw [he]
    have hflt : (seed_from 1 (shuffle t.participants)).filter (fun p => !p.eliminated)
        = seed_from 1 (shuffle t.participants) :=
      List.filter_eq_self.mpr (by intro p hp; simp [helseed p hp])
    rcases hfmt with hf | hf
    · rw [hf]
      dsimp only
      refine ⟨_, rfl, rfl, ?_, ?_⟩
      · dsimp only
        rw [schedule_se_round_map_seed]
        exact hseedperm
      · refine ⟨(schedule_se_round 1 (seed_from 1 (shuffle t.participants))).1, rfl, ?_, ?_⟩
        · rw [schedule_se_round_fst]
          apply List.ne_nil_of_length_pos
          rw [List.length_map, pair_up_length, sort_by_length, hflt, hseedlen]
          omega
        · intro g hg
          rw [schedule_se_round_fst] at hg
          simp only [List.mem_map] at hg
          obtain ⟨q, _, rfl⟩ := hg
          rfl
    · rw [hf]
      dsimp only
      refine ⟨_, rfl, rfl, hseedperm, ?_⟩
      refine ⟨schedule_round_robin_games (seed_from 1 (shuffle t.participants)), rfl, ?_,
        rr_games_round_one _⟩
      apply List.ne_nil_of_length_pos
      have h2l := rr_pairs_length ((seed_from 1 (shuffle t.participants)).map (fun p => p.bot_id))
      simp only [schedule_round_robin_games, List.length_map]
      rw [List.length_map, hseedlen] at h2l
      have hmul : 2 * 1 ≤ t.participants.length * (t.participants.length - 1) :=
        Nat.mul_le_mul h2 (by omega)
      omega

/-- C4 witness: starting a concrete two-entrant round-robin tournament. -/
theorem tournament_C4_witness :
    ∃ t' : TournamentState, start_tournament id tReg = Except.ok t' ∧
      t'.status = TournamentStatus.in_progress ∧
      (t'.participants.map (fun p => p.seed)).Perm
        ((List.range tReg.participants.length).map (fun i : Nat => some ((i : Int) + 1))) ∧
      ∃ new : List GameRec, t'.games = tReg.games ++ new ∧ new ≠ [] ∧
        ∀ g ∈ new, g.round_number = 1 :=
  (tournament_C4 id tReg).2.2 rfl (by decide) (List.Perm.refl _) (by decide) (Or.inr rfl)

lemma sort_by_sorted_id {α : Type} (le : α → α → Bool) :
    ∀ l : List α, List.Pairwise (fun p q => le p q = true) l → sort_by le l = l := by
  intro l
  induction l with
  | nil => intro _; rfl
  | cons x xs ih =>
    intro h
    rw [List.pairwise_cons] at h
    obtain ⟨hx, hxs⟩ := h
    simp only [sort_by, ih hxs]
    cases xs with
    | nil => rfl
    | cons y ys =>
      simp only [insert_sorted]
      rw [if_pos (hx y (by simp))]

lemma pair_up_getD {α : Type} (d : α) : ∀ (l : List α) (i : Nat), 2 * i + 1 < l.length →
    (pair_up l).getD i (d, d) = (l.getD (2 * i) d, l.getD (2 * i + 1) d)
  | [], i, h => by simp at h
  | [x], i, h => by
    simp only [List.length_cons, List.length_nil] at h
    omega
  | x :: y :: r, 0, h => by simp [pair_up]
  | x :: y :: r, i + 1, h => by
    have h' : 2 * i + 1 < r.length := by
      simp only [List.length_cons] at h
      omega
    have ih := pair_up_getD d r i h'
    simp only [pair_up, List.getD_cons_succ]
    have e1 : 2 * (i + 1) = 2 * i + 1 + 1 := by ring
    rw [e1]
    simp only [List.getD_cons_succ]
    exact ih

lemma pair_up_mem_dropLast {α : Type} : ∀ (l : List α), l.length % 2 = 1 →
    ∀ q ∈ pair_up l, q.1 ∈ l.dropLast ∧ q.2 ∈ l.dropLast
  | [], h => by simp at h
  | [x], h => by intro q hq; simp [pair_up] at hq
  | x :: y :: r, h => by
    intro q hq
    have hr : r.length % 2 = 1 := by
      simp only [List.length_cons] at h
      omega
    have hrne : r ≠ [] := by
      intro h0
      rw [h0] at hr
      simp at hr
    obtain ⟨z, r', rfl⟩ : ∃ z r', r = z :: r' := by
      cases r with
      | nil => exact absurd rfl hrne
      | cons z r' => exact ⟨z, r', rfl⟩
    have hd : (x :: y :: z :: r').dropLast = x :: y :: (z :: r').dropLast := by
      rw [List.dropLast_cons₂, List.dropLast_cons₂]
    simp only [pair_up, List.mem_cons] at hq
    rcases hq with rfl | hq
    · rw [hd]
      constructor <;> simp
    · obtain ⟨h1, h2⟩ := pair_up_mem_dropLast (z :: r') hr q hq
      rw [hd]
      constructor
      · simp [h1]
      · simp [h2]

lemma map_update_append (l1 : List Participant) (b : Participant)
    (f : Participant → Participant)
    (hnotin : b.bot_id ∉ l1.map (fun p => p.bot_id)) :
    (l1 ++ [b]).map (fun p => if p.bot_id = b.bot_id then f p else p) = l1 ++ [f b] := by
  rw [List.map_append]
  congr 1
  · have hpt : ∀ p ∈ l1, (if p.bot_id = b.bot_id then f p else p) = p := by
      intro p hp
      have hne : p.bot_id ≠ b.bot_id := by
        intro he
        exact hnotin (he ▸ List.mem_map.mpr ⟨p, hp, rfl⟩)
      exact if_neg hne
    rw [List.map_congr_left hpt]
    simp
  · simp

/-- C7: scheduling a single-elimination round over an odd number of
non-eliminated participants ordered by seed pairs index 2i with 2i+1, creates
no match for the last participant, and bumps only that participant's wins
and games played. -/
theorem tournament_C7 : ∀ (r : Nat) (parts : List Participant) (hne : parts ≠ []),
    parts.length % 2 = 1 →
    (∀ p ∈ parts, p.eliminated = false) →
    List.Pairwise (fun p q => seed_le p q = true) parts →
    (parts.map (fun p => p.bot_id)).Nodup →
    (schedule_se_round r parts).1.length = parts.length / 2 ∧
    (∀ g ∈ (schedule_se_round r parts).1, (parts.getLast hne).bot_id ∉ g.players) ∧
    (schedule_se_round r parts).2 =
      parts.dropLast ++ [{ parts.getLast hne with
        wins := (parts.getLast hne).wins + 1,
        games_played := (parts.getLast hne).games_played + 1 }] ∧
    (∀ i : Nat, 2 * i + 1 < parts.length →
      (schedule_se_round r parts).1.getD i dG =
        mk_tournament_game r
          [(parts.getD (2 * i) dP).bot_id, (parts.getD (2 * i + 1) dP).bot_id]) := by
  intro r parts hne hodd hel hsorted hnd
  have hsa : sort_by seed_le (parts.filter (fun p => !p.eliminated)) = parts := by
    rw [List.filter_eq_self.mpr (by intro p hp; simp [hel p hp])]
    exact sort_by_sorted_id seed_le parts hsorted
  have hdecomp : parts.dropLast ++ [parts.getLast hne] = parts :=
    List.dropLast_append_getLast hne
  have hnotin : (parts.getLast hne).bot_id ∉ parts.dropLast.map (fun p => p.bot_id) := by
    intro hmem
    rw [← hdecomp, List.map_append, List.nodup_append] at hnd
    exact hnd.2.2 hmem (by simp)
  have hfst : (schedule_se_round r parts).1
      = (pair_up parts).map (fun q => mk_tournament_game r [q.1.bot_id, q.2.bot_id]) := by
    rw [schedule_se_round_fst, hsa]
  refine ⟨?_, ?_, ?_, ?_⟩
  · rw [hfst, List.length_map, pair_up_length]
  · intro g hg
    rw [hfst] at hg
    simp only [List.mem_map] at hg
    obtain ⟨q, hq, rfl⟩ := hg
    obtain ⟨h1, h2⟩ := pair_up_mem_dropLast parts hodd q hq
    intro hmem
    simp only [mk_tournament_game, List.mem_cons, List.not_mem_nil] at hmem
    rcases hmem with he | he | he
    · exact hnotin (he ▸ List.mem_map.mpr ⟨q.1, h1, rfl⟩)
    · exact hnotin (he ▸ List.mem_map.mpr ⟨q.2, h2, rfl⟩)
    · exact he
  · unfold schedule_se_round
    dsimp only
    rw [hsa, if_pos hodd, List.getLast?_eq_getLast parts hne]
    dsimp only
    obtain ⟨b, hb⟩ : ∃ b, parts.getLast hne = b := ⟨_, rfl⟩
    rw [hb] at hdecomp hnotin ⊢
    conv_lhs => rw [← hdecomp]
    exact map_update_append parts.dropLast b _ hnotin
  · intro i h2i
    have hi : i < (pair_up parts).length := by
      rw [pair_up_length]
      omega
    rw [hfst, List.getD_eq_getElem?_getD, List.getElem?_map, List.getElem?_eq_getElem hi]
    have hq : (pair_up parts)[i] = (parts.getD (2 * i) dP, parts.getD (2 * i + 1) dP) := by
      have := pair_up_getD dP parts i h2i
      rw [List.getD_eq_getElem?_getD, List.getElem?_eq_getElem hi] at this
      simpa using this
    rw [hq]
    rfl

/-- C7 witness: the bye behaviour evaluated on three concrete seeded
participants. -/
theorem tournament_C7_witness :
    (schedule_se_round 2 parts3).1.length = parts3.length / 2 ∧
    (schedule_se_round 2 parts3).2 =
      parts3.dropLast ++ [{ parts3.getLast (by decide) with
        wins := (parts3.getLast (by decide)).wins + 1,
        games_played := (parts3.getLast (by decide)).games_played + 1 }] ∧
    (schedule_se_round 2 parts3).1.getD 0 dG =
      mk_tournament_game 2 [(parts3.getD 0 dP).bot_id, (parts3.getD 1 dP).bot_id] := by
  have h := tournament_C7 2 parts3 (by decide) (by decide) (by decide) (by decide) (by decide)
  refine ⟨h.1, h.2.2.1, ?_⟩
  have h4 := h.2.2.2 0 (by decide)
  simpa using h4

end Chipengine
